import Mathlib

/-!
Verification of the job-execution scheduler of `py-qgis-wps`
(`pyqgiswps/executors/processingexecutor.py` and
`pyqgiswps/handlers/wpshandler.py`), shallowly embedded in Lean 4.

The scheduler's collaborators that are declared elsewhere in the repository
(the `STATUS` enum of `pyqgiswps/app/WPSResponse.py`, the status store
`pyqgiswps/executors/logstore.py`, the LRU cache `pyqgiswps/utils/lru.py`,
the protocol error rendering of `pyqgiswps/handlers/basehandler.py`) are
modelled from the specification, as noted on each definition.
-/

namespace PyQgisWps

/-- Modelled from the spec: the status enum of `pyqgiswps.app.WPSResponse.STATUS`
(not under `src/`).  The spec (§3) requires an enum "ordered such that a numeric
comparison distinguishes `still in flight` from `terminal` (terminal ≥ a DONE
threshold)"; the members below are the ones the source code under `src/` names
(`STORE_STATUS`, `STORE_AND_UPDATE_STATUS`, `DONE_STATUS`, `ERROR_STATUS`) plus
the implicit initial member. -/
inductive STATUS where
  | NO_STATUS
  | STORE_STATUS
  | STORE_AND_UPDATE_STATUS
  | DONE_STATUS
  | ERROR_STATUS
deriving DecidableEq, Repr

/-- Numeric value of a status member, giving the total order used by
`STATUS[...] < STATUS.DONE_STATUS` comparisons. -/
def STATUS.toNat : STATUS → Nat
  | .NO_STATUS => 0
  | .STORE_STATUS => 1
  | .STORE_AND_UPDATE_STATUS => 2
  | .DONE_STATUS => 3
  | .ERROR_STATUS => 4

/-- `STATUS[name]`: look a member up by its name.  `.error ()` models the
`KeyError` Python raises on an unknown (legacy) name. -/
def STATUS.ofName (s : String) : Except Unit STATUS :=
  if s = "NO_STATUS" then .ok .NO_STATUS
  else if s = "STORE_STATUS" then .ok .STORE_STATUS
  else if s = "STORE_AND_UPDATE_STATUS" then .ok .STORE_AND_UPDATE_STATUS
  else if s = "DONE_STATUS" then .ok .DONE_STATUS
  else if s = "ERROR_STATUS" then .ok .ERROR_STATUS
  else .error ()

/-- A status name is *known non-terminal* when it maps to an enum member
strictly below `DONE_STATUS` (the comparison `STATUS[s] < STATUS.DONE_STATUS`
succeeding with `True`). -/
def knownNonTerminal (s : String) : Bool :=
  match STATUS.ofName s with
  | .ok st => st.toNat < STATUS.DONE_STATUS.toNat
  | .error _ => false

/-- A stored job record, as read back from the status store by
`delete_results` and `_clean_processes`: the fields those functions access.
`status` is the raw stored string (legacy records may hold names that are not
members of the current enum); `timestamp`, `timeout` and `expiration` are the
optional numeric fields read with `rec.get(...)`; `pinned` is read with
`rec.get('pinned', False)`. -/
structure Record where
  uuid : String
  status : String
  timestamp : Option Int
  timeout : Option Int
  expiration : Option Int
  pinned : Bool
deriving DecidableEq, Repr

/-- Modelled from the spec: the durable status store (`logstore`, not under
`src/`) together with the job working directories, as the scheduler's delete
and reaper paths observe them.  `records` is the store's enumeration of job
records; `workdirs` is the set (as a list) of job ids whose working directory
`<base>/<job-id>` currently exists on disk. -/
structure ServerState where
  records : List Record
  workdirs : List String
deriving DecidableEq, Repr

/-- Modelled from the spec: `logstore.get_status(uuid)` returns the record
for the given job id, or `none` when no such record exists. -/
def getStatus (s : ServerState) (uuid : String) : Option Record :=
  s.records.find? (fun r => r.uuid = uuid)

/-- Modelled from the spec: `logstore.delete_response(uuid)` deletes the
record for the given job id from the store. -/
def deleteResponse (s : ServerState) (uuid : String) : ServerState :=
  { s with records := s.records.filter (fun r => r.uuid ≠ uuid) }

/-- The best-effort working-directory removal shared by `delete_results` and
`_clean_processes`: `if os.path.isdir(workdir): shutil.rmtree(workdir)` inside
`try/except`.  `rmFails uuid = true` models a filesystem error raised by
`rmtree`, which is caught, logged and ignored. -/
def removeWorkdir (rmFails : String → Bool) (s : ServerState) (uuid : String) :
    ServerState :=
  if s.workdirs.contains uuid && !rmFails uuid then
    { s with workdirs := s.workdirs.filter (fun w => w ≠ uuid) }
  else s

/-- `ProcessingExecutor.delete_results(uuid)`
(`processingexecutor.py:98-129`).  `.error uuid` models the raised
`FileNotFoundError(uuid)`; `.ok (b, s')` models returning `b` with the store
and filesystem left in state `s'`.  A known non-terminal status returns
`False` without touching anything; the `KeyError` on a legacy status name is
caught and the deletion proceeds. -/
def delete_results (rmFails : String → Bool) (s : ServerState) (uuid : String) :
    Except String (Bool × ServerState) :=
  match getStatus s uuid with
  | none => .error uuid
  | some rec =>
    let proceed : Bool :=
      match STATUS.ofName rec.status with
      | .ok st => !(st.toNat < STATUS.DONE_STATUS.toNat)
      | .error _ => true
    if proceed then
      let s1 := removeWorkdir rmFails s rec.uuid
      .ok (true, deleteResponse s1 rec.uuid)
    else
      .ok (false, s)

/-- `StatusHandler.delete(uuid)` (`wpshandler.py:152-164`): the HTTP status
code set by the handler (200 when nothing is set explicitly), together with
the resulting server state. -/
def statusHandlerDelete (rmFails : String → Bool) (s : ServerState)
    (uuid : Option String) : Nat × ServerState :=
  match uuid with
  | none => (400, s)
  | some u =>
    match delete_results rmFails s u with
    | .error _ => (404, s)
    | .ok (success, s') => if success then (200, s') else (409, s')

/-- Modelled from the spec: the mutable per-job response object / job record
(`pyqgiswps.app.WPSResponse`, not under `src/`) as the scheduler observes it:
the current status member, the last status message, the `store` flag, and the
response document. -/
structure WpsResponse where
  status : STATUS
  message : String
  store : Bool
  document : String
deriving DecidableEq, Repr

/-- Modelled from the spec: `wps_response.update_status(message, progress,
status)` — updates the job record with the message and, when a status member
is supplied, transitions the record to it (`status=None` keeps the current
member). -/
def update_status (r : WpsResponse) (msg : String) (st : Option STATUS) :
    WpsResponse :=
  { r with message := msg, status := st.getD r.status }

/-- The outcome the pool future delivers when awaited
(`await apply_future`).  Per the worker-pool contract the await either
returns the worker's document or raises exactly one of
`asyncio.TimeoutError`, `MaxRequestsExceeded`, or `RequestBackendError`
wrapping the exception the worker raised (`isProcessExc` tells whether that
wrapped exception `isinstance(e.response, ProcessException)`; `msg` is its
text). -/
inductive PoolOutcome where
  | ok (doc : String)
  | timeout
  | maxRequests
  | backendError (isProcessExc : Bool) (msg : String)
deriving DecidableEq, Repr

/-- An exception escaping `ProcessingExecutor.execute`:
`NoApplicableCode(msg, code)`, or the re-raised `RequestBackendError`. -/
inductive ExecError where
  | noApplicableCode (msg : String) (code : Nat)
  | requestBackendError (isProcessExc : Bool) (msg : String)
deriving DecidableEq, Repr

/-- The externally visible actions `execute` performs on its own (caller)
control path, in program order: logging the request to the status store,
submitting the work unit to the worker pool (`self._pool.apply_async`),
spawning the detached asynchronous task (`asyncio.ensure_future`), and a
status update on the job record. -/
inductive Event where
  | logRequest
  | poolSubmit
  | spawnTask
  | statusUpdate (msg : String) (st : Option STATUS)
deriving DecidableEq, Repr

/-- `ProcessingExecutor.execute` (`processingexecutor.py:211-269`): the
caller-path trace of events in program order, the job record as the caller
path leaves it, and the returned document or raised error.

The pool outcome is the value/exception the future delivers; in asynchronous
mode (`status == STORE_AND_UPDATE_STATUS`) the caller path never awaits the
future, so the outcome does not affect the caller's result there (the
detached task `do_execute_async` consumes it instead). -/
def execute (resp : WpsResponse) (outcome : PoolOutcome) :
    List Event × WpsResponse × Except ExecError String :=
  let resp := { resp with
                store := STATUS.STORE_STATUS.toNat ≤ resp.status.toNat }
  let tr : List Event := [.logRequest, .poolSubmit]
  if resp.status = STATUS.STORE_AND_UPDATE_STATUS then
    let resp := update_status resp "Task accepted" none
    (tr ++ [.spawnTask, .statusUpdate "Task accepted" none], resp,
     .ok resp.document)
  else
    match outcome with
    | .ok doc => (tr, resp, .ok doc)
    | .timeout =>
        let resp := update_status resp "Timeout Error" (some .ERROR_STATUS)
        (tr ++ [.statusUpdate "Timeout Error" (some .ERROR_STATUS)], resp,
         .error (.noApplicableCode "Execute Timeout" 424))
    | .maxRequests =>
        (tr, resp,
         .error (.noApplicableCode "Server busy, please retry later" 509))
    | .backendError isProcessExc m =>
        if isProcessExc then
          (tr, resp, .error (.noApplicableCode "Process Error" 424))
        else
          (tr, resp, .error (.requestBackendError isProcessExc m))

/-- The detached background task `do_execute_async`
(`processingexecutor.py:235-247`): awaits the pool future, records failures
on the job record, and swallows every exception (`except Exception` after the
two specific handlers).  The `Except` return type records whether any
exception escapes the task: the theorems show it never does. -/
def do_execute_async (outcome : PoolOutcome) (resp : WpsResponse) :
    Except ExecError WpsResponse :=
  match outcome with
  | .ok _ => .ok resp
  | .timeout => .ok (update_status resp "Timeout Error" (some .ERROR_STATUS))
  | .maxRequests =>
      .ok (update_status resp "Server busy, please retry later"
            (some .ERROR_STATUS))
  | .backendError _ _ =>
      .ok (update_status resp "Internal Error" (some .ERROR_STATUS))

/-- What the job handler run inside the worker does: returns normally,
raises a recognized `ProcessException` with a message, or raises any other
exception with a detail message. -/
inductive HandlerOutcome where
  | success
  | processException (msg : String)
  | unexpected (msg : String)
deriving DecidableEq, Repr

/-- An exception raised out of `_run_process` inside the worker (the pool
wraps it into `RequestBackendError` for the awaiting caller). -/
inductive WorkerError where
  | processExc (msg : String)
  | unexpectedExc (msg : String)
deriving DecidableEq, Repr

/-- `ProcessingExecutor._run_process` (`processingexecutor.py:271-296`): the
worker-side record updates and result.  On success the record is marked
started then finished (`DONE_STATUS`) and the serialized document returned;
a `ProcessException`'s own text is written to the record; any other
exception writes the fixed string "Internal error"; in both failure cases
the exception is re-raised. -/
def run_process (h : HandlerOutcome) (resp : WpsResponse) :
    Except WorkerError String × WpsResponse :=
  let resp := update_status resp "Task started" none
  match h with
  | .success =>
      let resp := update_status resp "Task finished" (some .DONE_STATUS)
      (.ok resp.document, resp)
  | .processException m =>
      (.error (.processExc m), update_status resp m (some .ERROR_STATUS))
  | .unexpected m =>
      (.error (.unexpectedExc m),
       update_status resp "Internal error" (some .ERROR_STATUS))

/-- Modelled from the spec: the protocol layer's rendering of an exception
escaping the scheduler (`pyqgiswps/handlers/basehandler.py`, not under
`src/`) as a protocol-level (message, code) pair: a `NoApplicableCode`
carries its own message and code; any other exception is rendered as a
generic internal error, its detail logged server-side only. -/
def renderError : ExecError → String × Nat
  | .noApplicableCode m c => (m, c)
  | .requestBackendError _ _ => ("Internal server error", 500)

/-- The fate of one record in a reaper scan cycle: `skipped` is the
`continue` taken for a live non-terminal job (the expiration/pinned decision
is never reached), `deleted` means the working directory was removed and the
record deleted, `kept` means the record reached the final decision and
survived it. -/
inductive ReapOutcome where
  | skipped
  | kept
  | deleted
deriving DecidableEq, Repr

/-- The `try` block of `_clean_processes` (`processingexecutor.py:318-329`)
for one record.  `.error ()` is the uncaught-`KeyError` exit (an unknown
status name); `.ok none` is the `continue`; `.ok (some d)` falls through to
the deletion decision with `dangling = d`.  Python's short-circuit `and`
means the `STATUS[...]` lookup only happens when the timestamp is present. -/
def reapTryBlock (now : Int) (rec : Record) : Except Unit (Option Bool) :=
  match rec.timestamp with
  | none => .ok (some true)
  | some ts =>
    match STATUS.ofName rec.status with
    | .error e => .error e
    | .ok st =>
      if st.toNat < STATUS.DONE_STATUS.toNat then
        let dangling : Bool :=
          match rec.timeout with
          | none => true
          | some t => now - ts ≥ t
        if dangling then .ok (some true) else .ok none
      else .ok (some false)

/-- The per-record body of `_clean_processes`
(`processingexecutor.py:317-344`): the `try` block computes `dangling` (a
`KeyError` is caught and leaves `dangling` at its pre-`try` value
`timestamp is None`), then an unpinned record is deleted when it is dangling
or its age reached the expiration (`rec.get('expiration', expire_default)`).
When `dangling` is true with an absent timestamp the age comparison is
short-circuited away, never evaluating `int(None)`. -/
def reapOutcome (expire_default now : Int) (rec : Record) : ReapOutcome :=
  match reapTryBlock now rec with
  | .ok none => .skipped
  | r =>
    let dangling : Bool :=
      match r with
      | .ok (some d) => d
      | _ => rec.timestamp.isNone
    let expiration := rec.expiration.getD expire_default
    let expired : Bool :=
      match rec.timestamp with
      | some ts => now - ts ≥ expiration
      | none => false
    if !rec.pinned && (dangling || expired) then .deleted else .kept

/-- The loop body of `_clean_processes` for one record: when the record's
outcome is `deleted`, remove its working directory best-effort and delete
its record from the store. -/
def reapStep (rmFails : String → Bool) (expire_default now : Int)
    (acc : ServerState) (rec : Record) : ServerState :=
  if reapOutcome expire_default now rec = ReapOutcome.deleted then
    deleteResponse (removeWorkdir rmFails acc rec.uuid) rec.uuid
  else acc

/-- `ProcessingExecutor._clean_processes` (`processingexecutor.py:299-344`):
one full scan cycle, iterating over a snapshot of the store's records
(`list(logstore.records)`) while deleting from the live state; every record
of the snapshot is examined regardless of the fate of the earlier ones. -/
def clean_processes (rmFails : String → Bool) (expire_default now : Int)
    (s : ServerState) : ServerState :=
  s.records.foldl (reapStep rmFails expire_default now) s

/-- A context-specialized (or base) process definition, as `get_processes`
handles it: its identifier plus an opaque payload distinguishing distinct
specializations of the same identifier. -/
structure WPSProcess where
  identifier : String
  payload : Nat
deriving DecidableEq, Repr

/-- A key of the executor's context cache: the `(map_uri, identifier)`
pair. -/
abbrev CacheKey := String × String

/-- Modelled from the spec: lookup in the LRU cache
(`pyqgiswps.utils.lru.lrucache`, not under `src/`).  The cache is an
association list ordered most-recently-used first; lookup returns the cached
value for the key, if any. -/
def lruGet (c : List (CacheKey × WPSProcess)) (k : CacheKey) :
    Option WPSProcess :=
  (c.find? (fun p => p.1 = k)).map (fun p => p.2)

/-- Modelled from the spec: insertion into the fixed-capacity LRU cache —
the key becomes most recently used with the new value, and anything beyond
the capacity is evicted least-recently-used first. -/
def lruPut (cap : Nat) (c : List (CacheKey × WPSProcess)) (k : CacheKey)
    (v : WPSProcess) : List (CacheKey × WPSProcess) :=
  ((k, v) :: c.filter (fun p => p.1 ≠ k)).take cap

/-- The loop `for p in processes: self._context_processes[(map_uri,
p.identifier)] = p` updating the cache with a batch of freshly specialized
definitions. -/
def lruPutAll (cap : Nat) (uri : String)
    (c : List (CacheKey × WPSProcess)) (ps : List WPSProcess) :
    List (CacheKey × WPSProcess) :=
  ps.foldl (fun acc p => lruPut cap acc (uri, p.identifier) p) c

/-- The executor state `get_processes` reads and writes: the base process
table `self.processes`, whether the factory has Qgis support enabled, the
context cache `self._context_processes` and its capacity (50 in
`ProcessingExecutor.__init__`). -/
structure ExecutorState where
  processes : List (String × WPSProcess)
  qgis_enabled : Bool
  cacheCap : Nat
  context_processes : List (CacheKey × WPSProcess)
deriving DecidableEq, Repr

/-- The list comprehension `[self.processes[ident] for ident in identifiers]`
of `get_processes`: resolve every identifier against the base process table,
failing with the first unknown identifier (the comprehension's `KeyError`,
re-raised as `UnknownProcessError`). -/
def resolveAll (table : List (String × WPSProcess)) :
    List String → Except String (List WPSProcess)
  | [] => .ok []
  | i :: rest =>
    match (table.find? (fun p => p.1 = i)).map (fun p => p.2) with
    | none => .error i
    | some v =>
      match resolveAll table rest with
      | .error e => .error e
      | .ok vs => .ok (v :: vs)

/-- `ProcessingExecutor.get_processes` (`processingexecutor.py:157-181`).
`specialize` stands for
`self._factory.create_contextualized_processes(identifiers, map_uri)` (the
factory is not under `src/`; per the spec it derives one specialized
definition per requested identifier for the context key).  `.error i` models
`UnknownProcessError` for an identifier missing from the base table. -/
def get_processes
    (specialize : List String → String → List WPSProcess)
    (ex : ExecutorState) (identifiers : List String)
    (map_uri : Option String) :
    Except String (List WPSProcess × ExecutorState) :=
  match resolveAll ex.processes identifiers with
  | .error i => .error i
  | .ok procs =>
    match map_uri with
    | none => .ok (procs, ex)
    | some uri =>
      if ex.qgis_enabled then
        if procs.any
            (fun p => (lruGet ex.context_processes (uri, p.identifier)).isNone)
        then
          let newProcs := specialize identifiers uri
          .ok (newProcs,
               { ex with context_processes :=
                   lruPutAll ex.cacheCap uri ex.context_processes newProcs })
        else
          .ok (procs.map (fun p =>
                 ((lruGet ex.context_processes (uri, p.identifier)).getD p)),
               ex)
      else .ok (procs, ex)

/-- Transcription of the claims' wording (to be compared with the
behaviour of `reapOutcome`): a record is *dangling* iff its timestamp is
absent, or its status is a known non-terminal status and (its timeout is
absent or `now - timestamp ≥ timeout`). -/
def spec_dangling (now : Int) (rec : Record) : Bool :=
  rec.timestamp.isNone ||
  (knownNonTerminal rec.status &&
    (match rec.timeout, rec.timestamp with
     | none, _ => true
     | some t, some ts => now - ts ≥ t
     | some _, none => true))

/-- Transcription of the claims' wording: a record is *expired* iff
`now - timestamp ≥` the record's expiration, defaulting to the server-wide
`response_expiration`. -/
def spec_expired (expire_default now : Int) (rec : Record) : Bool :=
  match rec.timestamp with
  | some ts => now - ts ≥ rec.expiration.getD expire_default
  | none => false

lemma getStatus_uuid_eq {s : ServerState} {uuid : String} {rec : Record}
    (h : getStatus s uuid = some rec) : rec.uuid = uuid := by
  have := List.find?_some h
  exact of_decide_eq_true this

lemma removeWorkdir_records (rmFails : String → Bool) (s : ServerState)
    (u : String) : (removeWorkdir rmFails s u).records = s.records := by
  unfold removeWorkdir; split <;> rfl

lemma deleteResponse_workdirs (s : ServerState) (u : String) :
    (deleteResponse s u).workdirs = s.workdirs := rfl

lemma getStatus_deleteResponse_self (s : ServerState) (u : String) :
    getStatus (deleteResponse s u) u = none := by
  unfold getStatus deleteResponse
  simp only [List.find?_eq_none]
  intro r hr
  have := (List.mem_filter.mp hr).2
  simpa using this

lemma removeWorkdir_not_mem (rmFails : String → Bool) (s : ServerState)
    (u : String) (h : rmFails u = false) :
    u ∉ (removeWorkdir rmFails s u).workdirs := by
  unfold removeWorkdir
  split
  · intro hmem
    have := (List.mem_filter.mp hmem).2
    simp at this
  · intro hmem
    rename_i hcond
    simp [h, List.elem_iff] at hcond
    exact hcond hmem

lemma proceed_eq_not_knownNonTerminal (rec : Record) :
    (match STATUS.ofName rec.status with
     | .ok st => !(st.toNat < STATUS.DONE_STATUS.toNat)
     | .error _ => true) = !knownNonTerminal rec.status := by
  unfold knownNonTerminal
  cases STATUS.ofName rec.status <;> simp

lemma reapStep_records_subset (rmFails : String → Bool) (ed now : Int)
    (acc : ServerState) (rec : Record) :
    (reapStep rmFails ed now acc rec).records ⊆ acc.records := by
  unfold reapStep
  split
  · intro a ha
    have : a ∈ (removeWorkdir rmFails acc rec.uuid).records :=
      List.filter_subset' _ ha
    rwa [removeWorkdir_records] at this
  · exact fun a ha => ha

lemma foldl_reapStep_subset (rmFails : String → Bool) (ed now : Int) :
    ∀ (recs : List Record) (acc : ServerState),
      (recs.foldl (reapStep rmFails ed now) acc).records ⊆ acc.records := by
  intro recs
  induction recs with
  | nil => exact fun acc a ha => ha
  | cons r t ih =>
      intro acc
      exact fun a ha =>
        reapStep_records_subset rmFails ed now acc r (ih _ ha)

lemma foldl_reapStep_removes (rmFails : String → Bool) (ed now : Int) :
    ∀ (recs : List Record) (acc : ServerState) (r' : Record),
      r' ∈ recs → reapOutcome ed now r' = .deleted →
      r' ∉ (recs.foldl (reapStep rmFails ed now) acc).records := by
  intro recs
  induction recs with
  | nil => intro acc r' hmem; exact absurd hmem (List.not_mem_nil r')
  | cons r t ih =>
      intro acc r' hmem hdel
      rcases List.mem_cons.mp hmem with heq | hmem'
      · subst heq
        intro hfin
        have hsub := foldl_reapStep_subset rmFails ed now t
          (reapStep rmFails ed now acc r') hfin
        unfold reapStep at hsub
        rw [if_pos hdel] at hsub
        have := (List.mem_filter.mp
          (by rwa [deleteResponse] at hsub)).2
        simp at this
      · exact ih _ r' hmem' hdel

/-- C1: a record examined by the reaper is deleted (record and working
directory) exactly when it is not pinned and is dangling or expired, with
dangling and expired as the claim defines them; a pinned record is never
deleted; and a known non-terminal record that is not dangling is skipped by
the `continue`, never reaching the expiration/pinned decision. -/
theorem claim_C1_reaper_deletion (ed now : Int) (rec : Record) :
    (rec.pinned = true → reapOutcome ed now rec ≠ .deleted)
    ∧ (knownNonTerminal rec.status = true → spec_dangling now rec = false →
        reapOutcome ed now rec = .skipped)
    ∧ (reapOutcome ed now rec ≠ .skipped →
        (reapOutcome ed now rec = .deleted ↔
          rec.pinned = false ∧
            (spec_dangling now rec || spec_expired ed now rec) = true)) := by
  obtain ⟨u, st, ts, tmo, exp, pin⟩ := rec
  cases ts with
  | none =>
      cases pin <;>
        simp [reapOutcome, reapTryBlock, spec_dangling, spec_expired,
              knownNonTerminal]
  | some ts =>
      cases hs : STATUS.ofName st with
      | error e =>
          by_cases he : now - ts ≥ exp.getD ed <;> cases pin <;>
            simp [reapOutcome, reapTryBlock, spec_dangling, spec_expired,
                  knownNonTerminal, hs, he]
      | ok s =>
          by_cases hlt : s.toNat < STATUS.DONE_STATUS.toNat
          · cases tmo with
            | none =>
                cases pin <;>
                  simp [reapOutcome, reapTryBlock, spec_dangling,
                        spec_expired, knownNonTerminal, hs, hlt]
            | some t =>
                by_cases ht : now - ts ≥ t <;>
                  by_cases he : now - ts ≥ exp.getD ed <;> cases pin <;>
                    simp [reapOutcome, reapTryBlock, spec_dangling,
                          spec_expired, knownNonTerminal, hs, hlt, ht, he]
          · by_cases he : now - ts ≥ exp.getD ed <;> cases pin <;>
              simp [reapOutcome, reapTryBlock, spec_dangling, spec_expired,
                    knownNonTerminal, hs, hlt, he]

/-- Witness for C1 at a concrete record: a known non-terminal record that is
not dangling is skipped by the reaper. -/
theorem claim_C1_witness :
    reapOutcome 60 100
      { uuid := "a", status := "STORE_AND_UPDATE_STATUS",
        timestamp := some 0, timeout := some 1000,
        expiration := some 60, pinned := false } = .skipped :=
  (claim_C1_reaper_deletion 60 100
      { uuid := "a", status := "STORE_AND_UPDATE_STATUS",
        timestamp := some 0, timeout := some 1000,
        expiration := some 60, pinned := false }).2.1
    (by decide) (by decide)

/-- C2: `delete_results` raises not-found (HTTP 404) when no record exists;
returns `False` (HTTP 409, distinct from 404) without touching the record or
the working directory when the status is a known non-terminal one; otherwise
removes the working directory best-effort, deletes the record and returns
`True` (HTTP 200) — even when the filesystem removal fails — after which a
second delete of the same id raises not-found. -/
theorem claim_C2_delete_semantics (rmFails : String → Bool)
    (s : ServerState) (uuid : String) :
    (getStatus s uuid = none →
      delete_results rmFails s uuid = .error uuid ∧
      statusHandlerDelete rmFails s (some uuid) = (404, s))
    ∧ (∀ rec, getStatus s uuid = some rec →
        knownNonTerminal rec.status = true →
        delete_results rmFails s uuid = .ok (false, s) ∧
        statusHandlerDelete rmFails s (some uuid) = (409, s))
    ∧ (∀ rec, getStatus s uuid = some rec →
        knownNonTerminal rec.status = false →
        delete_results rmFails s uuid =
          .ok (true, deleteResponse (removeWorkdir rmFails s uuid) uuid) ∧
        getStatus (deleteResponse (removeWorkdir rmFails s uuid) uuid) uuid
          = none ∧
        (rmFails uuid = false →
          uuid ∉ (deleteResponse (removeWorkdir rmFails s uuid) uuid).workdirs) ∧
        delete_results rmFails
          (deleteResponse (removeWorkdir rmFails s uuid) uuid) uuid
          = .error uuid ∧
        statusHandlerDelete rmFails s (some uuid) =
          (200, deleteResponse (removeWorkdir rmFails s uuid) uuid)) := by
  refine ⟨?_, ?_, ?_⟩
  · intro h
    constructor
    · simp [delete_results, h]
    · simp [statusHandlerDelete, delete_results, h]
  · intro rec hrec hk
    have hd : delete_results rmFails s uuid = .ok (false, s) := by
      simp only [delete_results, hrec]
      rw [proceed_eq_not_knownNonTerminal, hk]
      simp
    exact ⟨hd, by simp [statusHandlerDelete, hd]⟩
  · intro rec hrec hk
    have huuid : rec.uuid = uuid := getStatus_uuid_eq hrec
    have hd : delete_results rmFails s uuid =
        .ok (true, deleteResponse (removeWorkdir rmFails s uuid) uuid) := by
      simp only [delete_results, hrec]
      rw [proceed_eq_not_knownNonTerminal, hk]
      simp [huuid]
    refine ⟨hd, getStatus_deleteResponse_self _ uuid, ?_, ?_, ?_⟩
    · intro hfail
      rw [deleteResponse_workdirs]
      exact removeWorkdir_not_mem rmFails s uuid hfail
    · simp [delete_results, getStatus_deleteResponse_self]
    · simp [statusHandlerDelete, hd]

/-- Witness for C2 at a concrete store: deleting a terminal job succeeds and
removes the record. -/
theorem claim_C2_witness :
    delete_results (fun _ => false)
      { records := [{ uuid := "j1", status := "DONE_STATUS",
                      timestamp := some 0, timeout := some 10,
                      expiration := some 10, pinned := false }],
        workdirs := ["j1"] } "j1" =
      .ok (true, deleteResponse
        (removeWorkdir (fun _ => false)
          { records := [{ uuid := "j1", status := "DONE_STATUS",
                          timestamp := some 0, timeout := some 10,
                          expiration := some 10, pinned := false }],
            workdirs := ["j1"] } "j1") "j1") :=
  ((claim_C2_delete_semantics (fun _ => false)
      { records := [{ uuid := "j1", status := "DONE_STATUS",
                      timestamp := some 0, timeout := some 10,
                      expiration := some 10, pinned := false }],
        workdirs := ["j1"] } "j1").2.2
    { uuid := "j1", status := "DONE_STATUS", timestamp := some 0,
      timeout := some 10, expiration := some 10, pinned := false }
    (by decide) (by decide)).1

/-- C3: in synchronous mode, a pool timeout marks the job record
`ERROR_STATUS` with the message "Timeout Error" and the call raises
`NoApplicableCode("Execute Timeout", code=424)`, an error value distinct
from the generic process-error `NoApplicableCode("Process Error", 424)`. -/
theorem claim_C3_sync_timeout (resp : WpsResponse)
    (h : resp.status ≠ STATUS.STORE_AND_UPDATE_STATUS) :
    (execute resp .timeout).2.2 =
        .error (.noApplicableCode "Execute Timeout" 424)
    ∧ (execute resp .timeout).2.1.status = STATUS.ERROR_STATUS
    ∧ (execute resp .timeout).2.1.message = "Timeout Error"
    ∧ ExecError.noApplicableCode "Execute Timeout" 424 ≠
        ExecError.noApplicableCode "Process Error" 424 := by
  refine ⟨?_, ?_, ?_, by decide⟩ <;> simp [execute, update_status, h]

/-- Witness for C3 at a concrete synchronous-mode response. -/
theorem claim_C3_witness :
    (execute ⟨.NO_STATUS, "", false, "doc"⟩ .timeout).2.2 =
        .error (.noApplicableCode "Execute Timeout" 424)
    ∧ (execute ⟨.NO_STATUS, "", false, "doc"⟩ .timeout).2.1.status =
        STATUS.ERROR_STATUS
    ∧ (execute ⟨.NO_STATUS, "", false, "doc"⟩ .timeout).2.1.message =
        "Timeout Error"
    ∧ ExecError.noApplicableCode "Execute Timeout" 424 ≠
        ExecError.noApplicableCode "Process Error" 424 :=
  claim_C3_sync_timeout ⟨.NO_STATUS, "", false, "doc"⟩ (by decide)

/-- C4: every failure of the detached asynchronous task is recorded on the
job record as `ERROR_STATUS` with the corresponding message and swallowed:
`do_execute_async` always returns `.ok`, never propagating an exception. -/
theorem claim_C4_async_errors_swallowed (outcome : PoolOutcome)
    (resp : WpsResponse) :
    ∃ resp', do_execute_async outcome resp = .ok resp'
      ∧ (outcome = .timeout →
          resp'.status = STATUS.ERROR_STATUS ∧
          resp'.message = "Timeout Error")
      ∧ (outcome = .maxRequests →
          resp'.status = STATUS.ERROR_STATUS ∧
          resp'.message = "Server busy, please retry later")
      ∧ (∀ b m, outcome = .backendError b m →
          resp'.status = STATUS.ERROR_STATUS ∧
          resp'.message = "Internal Error") := by
  cases outcome <;>
    exact ⟨_, rfl, by simp [update_status], by simp [update_status],
           by simp [update_status]⟩

/-- Witness for C4: the detached task swallows a timeout after recording
it. -/
theorem claim_C4_witness :
    ∃ resp', do_execute_async .timeout ⟨.STORE_AND_UPDATE_STATUS, "", true,
        "doc"⟩ = .ok resp' ∧ resp'.status = STATUS.ERROR_STATUS ∧
        resp'.message = "Timeout Error" := by
  obtain ⟨r', h1, h2, -, -⟩ :=
    claim_C4_async_errors_swallowed .timeout
      ⟨.STORE_AND_UPDATE_STATUS, "", true, "doc"⟩
  exact ⟨r', h1, (h2 rfl).1, (h2 rfl).2⟩

/-- C5: in synchronous mode a pool-saturation rejection raises
`NoApplicableCode("Server busy, please retry later", code=509)` and performs
no status update on the job record: the caller trace contains no status
update and the record's status and message are unchanged. -/
theorem claim_C5_sync_overload (resp : WpsResponse)
    (h : resp.status ≠ STATUS.STORE_AND_UPDATE_STATUS) :
    (execute resp .maxRequests).2.2 =
        .error (.noApplicableCode "Server busy, please retry later" 509)
    ∧ (execute resp .maxRequests).1 = [.logRequest, .poolSubmit]
    ∧ (∀ m st, Event.statusUpdate m st ∉ (execute resp .maxRequests).1)
    ∧ (execute resp .maxRequests).2.1.status = resp.status
    ∧ (execute resp .maxRequests).2.1.message = resp.message := by
  refine ⟨?_, ?_, ?_, ?_, ?_⟩ <;> simp [execute, h]

/-- Witness for C5 at a concrete synchronous-mode response. -/
theorem claim_C5_witness :
    (execute ⟨.STORE_STATUS, "m0", false, "doc"⟩ .maxRequests).2.2 =
        .error (.noApplicableCode "Server busy, please retry later" 509)
    ∧ (execute ⟨.STORE_STATUS, "m0", false, "doc"⟩ .maxRequests).1 =
        [.logRequest, .poolSubmit]
    ∧ (∀ m st, Event.statusUpdate m st ∉
        (execute ⟨.STORE_STATUS, "m0", false, "doc"⟩ .maxRequests).1)
    ∧ (execute ⟨.STORE_STATUS, "m0", false, "doc"⟩ .maxRequests).2.1.status =
        STATUS.STORE_STATUS
    ∧ (execute ⟨.STORE_STATUS, "m0", false, "doc"⟩ .maxRequests).2.1.message =
        "m0" :=
  claim_C5_sync_overload ⟨.STORE_STATUS, "m0", false, "doc"⟩ (by decide)

/-- C6: for a worker failure other than timeout or saturation, a recognized
process exception makes the call fail with the fixed
`NoApplicableCode("Process Error", 424)` while the worker recorded the
exception's own message on the job record; any other worker failure has the
fixed message "Internal error" recorded, the exception is re-raised and its
protocol rendering is the generic internal error — in both cases what the
caller sees is a constant carrying none of the underlying detail. -/
theorem claim_C6_worker_failure (resp : WpsResponse) (m : String)
    (h : resp.status ≠ STATUS.STORE_AND_UPDATE_STATUS) :
    (execute resp (.backendError true m)).2.2 =
        .error (.noApplicableCode "Process Error" 424)
    ∧ renderError (.noApplicableCode "Process Error" 424) =
        ("Process Error", 424)
    ∧ (run_process (.processException m) resp).2.message = m
    ∧ (run_process (.processException m) resp).2.status = STATUS.ERROR_STATUS
    ∧ (run_process (.unexpected m) resp).2.message = "Internal error"
    ∧ (run_process (.unexpected m) resp).2.status = STATUS.ERROR_STATUS
    ∧ (execute resp (.backendError false m)).2.2 =
        .error (.requestBackendError false m)
    ∧ renderError (.requestBackendError false m) =
        ("Internal server error", 500) := by
  refine ⟨?_, rfl, ?_, ?_, ?_, ?_, ?_, rfl⟩ <;>
    simp [execute, run_process, update_status, renderError, h]

/-- Witness for C6 at a concrete synchronous-mode response and message. -/
theorem claim_C6_witness :
    (execute ⟨.NO_STATUS, "", false, "d"⟩ (.backendError true "boom")).2.2 =
        .error (.noApplicableCode "Process Error" 424)
    ∧ renderError (.noApplicableCode "Process Error" 424) =
        ("Process Error", 424)
    ∧ (run_process (.processException "boom")
        ⟨.NO_STATUS, "", false, "d"⟩).2.message = "boom"
    ∧ (run_process (.processException "boom")
        ⟨.NO_STATUS, "", false, "d"⟩).2.status = STATUS.ERROR_STATUS
    ∧ (run_process (.unexpected "boom")
        ⟨.NO_STATUS, "", false, "d"⟩).2.message = "Internal error"
    ∧ (run_process (.unexpected "boom")
        ⟨.NO_STATUS, "", false, "d"⟩).2.status = STATUS.ERROR_STATUS
    ∧ (execute ⟨.NO_STATUS, "", false, "d"⟩ (.backendError false "boom")).2.2 =
        .error (.requestBackendError false "boom")
    ∧ renderError (.requestBackendError false "boom") =
        ("Internal server error", 500) :=
  claim_C6_worker_failure ⟨.NO_STATUS, "", false, "d"⟩ "boom" (by decide)

/-- C8: in both modes, the caller trace of `execute` starts with the request
log (the write creating the accepted job record) followed by the pool
submission: the accepted-record write happens before the submission. -/
theorem claim_C8_accepted_before_submit (resp : WpsResponse)
    (outcome : PoolOutcome) :
    ∃ rest, (execute resp outcome).1 =
      Event.logRequest :: Event.poolSubmit :: rest := by
  refine ⟨(execute resp outcome).1.drop 2, ?_⟩
  by_cases h : resp.status = STATUS.STORE_AND_UPDATE_STATUS <;>
    rcases outcome with _ | _ | _ | ⟨b, m⟩ <;>
      first
        | (cases b <;> simp [execute, h])
        | simp [execute, h]

/-- C9: a record whose stored status is not a known member of the enum makes
the `STATUS[...]` lookup raise, the reaper catches it: the dangling-by-
timeout check is skipped (the outcome does not depend on the timeout), the
record still reaches the expiration/pinned decision, and the scan still
deletes every other deletable record of the cycle. -/
theorem claim_C9_unknown_status_no_fault (rmFails : String → Bool)
    (ed now : Int) (rec : Record) (ts : Int)
    (hst : STATUS.ofName rec.status = .error ())
    (hts : rec.timestamp = some ts) :
    reapTryBlock now rec = .error ()
    ∧ (∀ tmo, reapOutcome ed now { rec with timeout := tmo } =
        reapOutcome ed now rec)
    ∧ reapOutcome ed now rec =
        (if rec.pinned = false ∧ now - ts ≥ rec.expiration.getD ed
         then .deleted else .kept)
    ∧ (∀ (rest : List Record) (wds : List String) (r' : Record),
        r' ∈ rest → reapOutcome ed now r' = .deleted →
        r' ∉ (clean_processes rmFails ed now ⟨rec :: rest, wds⟩).records) := by
  refine ⟨?_, ?_, ?_, ?_⟩
  · simp [reapTryBlock, hts, hst]
  · intro tmo
    simp [reapOutcome, reapTryBlock, hts, hst]
  · by_cases he : now - ts ≥ rec.expiration.getD ed <;>
      cases hp : rec.pinned <;>
        simp [reapOutcome, reapTryBlock, hts, hst, he, hp]
  · intro rest wds r' hmem hdel
    exact foldl_reapStep_removes rmFails ed now (rec :: rest)
      ⟨rec :: rest, wds⟩ r' (List.mem_cons_of_mem rec hmem) hdel

/-- Witness for C9 at a concrete legacy record and scan. -/
theorem claim_C9_witness :
    reapTryBlock 100
      { uuid := "a", status := "LEGACY", timestamp := some 0,
        timeout := some 5, expiration := some 50, pinned := false }
      = .error ()
    ∧ reapOutcome 60 100
        { uuid := "a", status := "LEGACY", timestamp := some 0,
          timeout := some 5, expiration := some 50, pinned := false }
      = .deleted := by
  obtain ⟨h1, -, h3, -⟩ :=
    claim_C9_unknown_status_no_fault (fun _ => false) 60 100
      { uuid := "a", status := "LEGACY", timestamp := some 0,
        timeout := some 5, expiration := some 50, pinned := false }
      0 rfl rfl
  refine ⟨h1, ?_⟩
  rw [h3]
  decide

/-- C10: `delete_results` on a record whose stored status is not a known
enum member proceeds as if the job were terminal: the working directory is
removed, the record deleted and `True` returned. -/
theorem claim_C10_legacy_delete (rmFails : String → Bool) (s : ServerState)
    (uuid : String) (rec : Record) (hrec : getStatus s uuid = some rec)
    (hst : STATUS.ofName rec.status = .error ()) :
    delete_results rmFails s uuid =
      .ok (true, deleteResponse (removeWorkdir rmFails s uuid) uuid)
    ∧ getStatus (deleteResponse (removeWorkdir rmFails s uuid) uuid) uuid
        = none
    ∧ (rmFails uuid = false →
        uuid ∉ (deleteResponse (removeWorkdir rmFails s uuid) uuid).workdirs) := by
  have huuid : rec.uuid = uuid := getStatus_uuid_eq hrec
  refine ⟨?_, getStatus_deleteResponse_self _ uuid, ?_⟩
  · simp only [delete_results, hrec]
    rw [proceed_eq_not_knownNonTerminal]
    simp [knownNonTerminal, hst, huuid]
  · intro hfail
    rw [deleteResponse_workdirs]
    exact removeWorkdir_not_mem rmFails s uuid hfail

/-- Witness for C10: a record under a legacy status name is deleted even
though its job would count as running under the old scheme. -/
theorem claim_C10_witness :
    delete_results (fun _ => false)
      { records := [{ uuid := "j2", status := "ACCEPTED",
                      timestamp := some 0, timeout := some 10,
                      expiration := some 10, pinned := false }],
        workdirs := ["j2"] } "j2" =
      .ok (true, deleteResponse
        (removeWorkdir (fun _ => false)
          { records := [{ uuid := "j2", status := "ACCEPTED",
                          timestamp := some 0, timeout := some 10,
                          expiration := some 10, pinned := false }],
            workdirs := ["j2"] } "j2") "j2") :=
  (claim_C10_legacy_delete (fun _ => false)
      { records := [{ uuid := "j2", status := "ACCEPTED",
                      timestamp := some 0, timeout := some 10,
                      expiration := some 10, pinned := false }],
        workdirs := ["j2"] } "j2"
      { uuid := "j2", status := "ACCEPTED", timestamp := some 0,
        timeout := some 10, expiration := some 10, pinned := false }
      (by decide) rfl).1

lemma resolveAll_identifiers (table : List (String × WPSProcess))
    (hwf : ∀ p ∈ table, p.2.identifier = p.1) :
    ∀ (ids : List String) (procs : List WPSProcess),
      resolveAll table ids = .ok procs →
      procs.map WPSProcess.identifier = ids := by
  intro ids
  induction ids with
  | nil =>
      intro procs h
      simp only [resolveAll] at h
      cases h
      rfl
  | cons i rest ih =>
      intro procs h
      simp only [resolveAll] at h
      cases hf : (table.find? (fun p => p.1 = i)).map (fun p => p.2) with
      | none => rw [hf] at h; cases h
      | some v =>
          rw [hf] at h
          cases hr : resolveAll table rest with
          | error e => rw [hr] at h; cases h
          | ok vs =>
              rw [hr] at h
              cases h
              obtain ⟨p, hp1, hp2⟩ := Option.map_eq_some'.mp hf
              have hkey : p.1 = i := by
                have h1 := List.find?_some hp1
                simpa using h1
              have hpm : p ∈ table := List.mem_of_find?_eq_some hp1
              have hv : v.identifier = i := by rw [← hp2, hwf p hpm, hkey]
              simp only [List.map_cons, ih vs hr, hv]

lemma find?_pairs_of_nodup :
    ∀ (l : List (CacheKey × WPSProcess)) (k : CacheKey) (v : WPSProcess),
      (l.map Prod.fst).Nodup → (k, v) ∈ l →
      l.find? (fun p => p.1 = k) = some (k, v) := by
  intro l
  induction l with
  | nil => intro k v _ hmem; cases hmem
  | cons q t ih =>
      intro k v hnodup hmem
      rcases List.mem_cons.mp hmem with heq | hmem'
      · rw [← heq]
        simp [List.find?_cons]
      · have hnc : (q.1 :: t.map Prod.fst).Nodup := by
          simpa only [List.map_cons] using hnodup
        have hq1 : ¬(q.1 = k) := by
          intro hk
          apply (List.nodup_cons.mp hnc).1
          rw [hk]
          exact List.mem_map_of_mem Prod.fst hmem'
        rw [List.find?_cons]
        simp only [hq1, decide_False]
        exact ih k v (List.nodup_cons.mp hnc).2 hmem'

lemma lruGet_append_left (l₁ l₂ : List (CacheKey × WPSProcess))
    (k : CacheKey) (v : WPSProcess)
    (h : l₁.find? (fun p => p.1 = k) = some (k, v)) :
    lruGet (l₁ ++ l₂) k = some v := by
  unfold lruGet
  rw [List.find?_append, h]
  rfl

lemma lruPutAll_shape (cap : Nat) (uri : String) :
    ∀ (ps : List WPSProcess) (c0 c : List (CacheKey × WPSProcess)),
      (ps.map WPSProcess.identifier).Nodup →
      ps.length + c0.length ≤ cap →
      (∀ q ∈ c0, ∀ p ∈ ps, q.1 ≠ (uri, p.identifier)) →
      ∃ rest, lruPutAll cap uri (c0 ++ c) ps =
        ps.reverse.map (fun p => ((uri, p.identifier), p)) ++ c0 ++ rest := by
  intro ps
  induction ps with
  | nil =>
      intro c0 c _ _ _
      exact ⟨c, by simp [lruPutAll]⟩
  | cons p0 ps' ih =>
      intro c0 c hnodup hlen hdisj
      have hnc : (p0.identifier :: ps'.map WPSProcess.identifier).Nodup := by
        simpa only [List.map_cons] using hnodup
      have hn' := List.nodup_cons.mp hnc
      have hc0filter :
          c0.filter (fun q => q.1 ≠ (uri, p0.identifier)) = c0 := by
        rw [List.filter_eq_self]
        intro q hq
        simpa using hdisj q hq p0 (List.mem_cons_self p0 ps')
      have hlen1 : c0.length + 1 ≤ cap := by
        have h2 := hlen
        simp only [List.length_cons] at h2
        omega
      have hstep : lruPut cap (c0 ++ c) (uri, p0.identifier) p0 =
          (((uri, p0.identifier), p0) :: c0) ++
            (c.filter (fun q => q.1 ≠ (uri, p0.identifier))).take
              (cap - (c0.length + 1)) := by
        unfold lruPut
        rw [List.filter_append, hc0filter, ← List.cons_append,
            List.take_append_eq_append_take,
            List.take_of_length_le (by simpa using hlen1)]
        simp
      obtain ⟨rest, hrest⟩ := ih (((uri, p0.identifier), p0) :: c0)
        ((c.filter (fun q => q.1 ≠ (uri, p0.identifier))).take
          (cap - (c0.length + 1)))
        hn'.2
        (by
          have h2 := hlen
          simp only [List.length_cons] at h2 ⊢
          omega)
        (by
          intro q hq p hp
          rcases List.mem_cons.mp hq with rfl | hq'
          · intro hkey
            apply hn'.1
            have hid : p0.identifier = p.identifier := by
              simpa using congrArg Prod.snd hkey
            rw [hid]
            exact List.mem_map_of_mem _ hp
          · exact hdisj q hq' p (List.mem_cons_of_mem p0 hp))
      refine ⟨rest, ?_⟩
      have hunfold : lruPutAll cap uri (c0 ++ c) (p0 :: ps') =
          lruPutAll cap uri
            (lruPut cap (c0 ++ c) (uri, p0.identifier) p0) ps' := rfl
      rw [hunfold, hstep, hrest]
      simp [List.reverse_cons, List.map_append, List.append_assoc]

lemma lruPutAll_get (cap : Nat) (uri : String) (ps : List WPSProcess)
    (c : List (CacheKey × WPSProcess))
    (hnodup : (ps.map WPSProcess.identifier).Nodup)
    (hlen : ps.length ≤ cap) :
    ∀ p ∈ ps, lruGet (lruPutAll cap uri c ps) (uri, p.identifier) = some p := by
  obtain ⟨rest, hshape⟩ :=
    lruPutAll_shape cap uri ps [] c hnodup (by simpa using hlen)
      (by intro q hq; cases hq)
  intro p hp
  rw [List.nil_append] at hshape
  rw [hshape, List.append_nil]
  apply lruGet_append_left
  apply find?_pairs_of_nodup
  · have hmapeq : (ps.reverse.map
        (fun p => ((uri, p.identifier), p))).map Prod.fst =
        (ps.reverse.map WPSProcess.identifier).map (fun i => (uri, i)) := by
      simp [List.map_map, Function.comp]
    rw [hmapeq]
    apply List.Nodup.map
    · intro a b hab
      simpa using congrArg Prod.snd hab
    · rw [List.map_reverse, List.nodup_reverse]
      exact hnodup
  · exact List.mem_map_of_mem _ (List.mem_reverse.mpr hp)

/-- C7: with a context key and Qgis specialization enabled, when every
requested identifier has a cached entry for that key the cached definitions
are returned; when at least one is missing, **all** requested identifiers
are re-specialized as a batch and the cache entry for each
`(context-key, identifier)` pair holds the freshly specialized
definition. -/
theorem claim_C7_context_specialization
    (specialize : List String → String → List WPSProcess)
    (ex : ExecutorState) (identifiers : List String) (uri : String)
    (procs : List WPSProcess)
    (hq : ex.qgis_enabled = true)
    (hwf : ∀ p ∈ ex.processes, p.2.identifier = p.1)
    (hres : resolveAll ex.processes identifiers = .ok procs)
    (hspec : (specialize identifiers uri).map WPSProcess.identifier
      = identifiers)
    (hnodup : identifiers.Nodup)
    (hcap : identifiers.length ≤ ex.cacheCap) :
    ((∀ i ∈ identifiers,
        (lruGet ex.context_processes (uri, i)).isSome = true) →
      ∃ ps, get_processes specialize ex identifiers (some uri) = .ok (ps, ex)
        ∧ ps.map some =
            identifiers.map (fun i => lruGet ex.context_processes (uri, i)))
    ∧ ((∃ i ∈ identifiers, lruGet ex.context_processes (uri, i) = none) →
      get_processes specialize ex identifiers (some uri) =
        .ok (specialize identifiers uri,
             { ex with context_processes :=
                         lruPutAll ex.cacheCap uri ex.context_processes
                           (specialize identifiers uri) })
      ∧ ∀ p ∈ specialize identifiers uri,
          lruGet (lruPutAll ex.cacheCap uri ex.context_processes
            (specialize identifiers uri)) (uri, p.identifier) = some p) := by
  have hpid : procs.map WPSProcess.identifier = identifiers :=
    resolveAll_identifiers ex.processes hwf identifiers procs hres
  constructor
  · intro hall
    have hany : procs.any
        (fun p => (lruGet ex.context_processes (uri, p.identifier)).isNone)
        = false := by
      rw [List.any_eq_false]
      intro p hp
      have hmem : p.identifier ∈ identifiers := by
        rw [← hpid]
        exact List.mem_map_of_mem _ hp
      obtain ⟨v, hv⟩ := Option.isSome_iff_exists.mp (hall p.identifier hmem)
      simp [hv]
    refine ⟨procs.map
        (fun p => (lruGet ex.context_processes (uri, p.identifier)).getD p),
      ?_, ?_⟩
    · simp [get_processes, hres, hq, hany]
    · rw [← hpid, List.map_map, List.map_map]
      apply List.map_congr_left
      intro p hp
      have hmem : p.identifier ∈ identifiers := by
        rw [← hpid]
        exact List.mem_map_of_mem _ hp
      obtain ⟨v, hv⟩ := Option.isSome_iff_exists.mp (hall p.identifier hmem)
      simp [Function.comp, hv]
  · rintro ⟨i, hi, hnone⟩
    have hany : procs.any
        (fun p => (lruGet ex.context_processes (uri, p.identifier)).isNone)
        = true := by
      rw [List.any_eq_true]
      have hmem : i ∈ procs.map WPSProcess.identifier := hpid ▸ hi
      obtain ⟨p, hp, hpi⟩ := List.mem_map.mp hmem
      refine ⟨p, hp, ?_⟩
      rw [hpi, hnone]
      rfl
    constructor
    · simp [get_processes, hres, hq, hany]
    · intro p hp
      have hlenspec : (specialize identifiers uri).length ≤ ex.cacheCap := by
        have hl := congrArg List.length hspec
        simp only [List.length_map] at hl
        rw [hl]
        exact hcap
      exact lruPutAll_get ex.cacheCap uri (specialize identifiers uri)
        ex.context_processes (by rw [hspec]; exact hnodup) hlenspec p hp

/-- Witness for C7: a concrete miss re-specializes the whole batch and
refreshes both cache entries. -/
theorem claim_C7_witness :
    get_processes
      (fun ids _ => ids.map (fun i => ⟨i, 7⟩))
      { processes := [("a", ⟨"a", 0⟩), ("b", ⟨"b", 0⟩)],
        qgis_enabled := true, cacheCap := 50,
        context_processes := [(("m", "a"), ⟨"a", 3⟩)] }
      ["a", "b"] (some "m") =
      .ok (["a", "b"].map (fun i => (⟨i, 7⟩ : WPSProcess)),
           { processes := [("a", ⟨"a", 0⟩), ("b", ⟨"b", 0⟩)],
             qgis_enabled := true, cacheCap := 50,
             context_processes :=
               lruPutAll 50 "m" [(("m", "a"), ⟨"a", 3⟩)]
                 (["a", "b"].map (fun i => (⟨i, 7⟩ : WPSProcess))) }) := by
  have h := (claim_C7_context_specialization
    (fun ids _ => ids.map (fun i => ⟨i, 7⟩))
    { processes := [("a", ⟨"a", 0⟩), ("b", ⟨"b", 0⟩)],
      qgis_enabled := true, cacheCap := 50,
      context_processes := [(("m", "a"), ⟨"a", 3⟩)] }
    ["a", "b"] "m" [⟨"a", 0⟩, ⟨"b", 0⟩]
    rfl (by decide) rfl (by decide) (by decide) (by decide)).2
    ⟨"b", by decide, by decide⟩
  exact h.1

end PyQgisWps
